import Mathlib

/-!
Verification of the pptt tree-printing engine (src/pptt/pptt.cpp).

The C++ source is shallowly embedded below.  Pure functions of the source
become Lean functions; the filesystem is modelled as a rose tree of entries
(each directory carrying a readability flag, so that traversal I/O errors
can be expressed); regular expression evaluation is abstracted by two
oracles, a validity predicate for patterns and a search predicate
(pattern, path) -> Bool, since the decision logic of the program never
inspects the regex engine beyond these two outcomes.
-/

namespace Pptt

/-! ### Pattern filters (struct PatternFilter, TreePrinter::matches_patterns) -/

/-- `struct PatternFilter \x7b std::string pattern; bool is_include; \x7d`. -/
structure PatternFilter where
  pattern : String
  is_include : Bool
deriving DecidableEq, Repr

/-- The loop of `matches_patterns` (pptt.cpp lines 98-118): walk the filter
list accumulating the four flags `has_include_filters`, `matches_include`,
`has_exclude_filters`, `matches_exclude`; an invalid regex (oracle `rv`
returns false) aborts with `none`, matching the early `return false`.
`rs pat s` is the regex-search oracle (`std::regex_search`). -/
def scanFilters (rv : String → Bool) (rs : String → String → Bool) (path : String) :
    List PatternFilter → Bool → Bool → Bool → Bool → Option (Bool × Bool × Bool × Bool)
  | [], hi, mi, he, me => some (hi, mi, he, me)
  | f :: fs, hi, mi, he, me =>
    if rv f.pattern then
      if f.is_include then
        scanFilters rv rs path fs true (mi || rs f.pattern path) he me
      else
        scanFilters rv rs path fs hi mi true (me || rs f.pattern path)
    else none

/-- `TreePrinter::matches_patterns` (pptt.cpp lines 74-133), applied to the
already-computed relative path string.  Empty filter list means include
everything; otherwise the flags decide: exclude match wins, then include
filters require an include match, otherwise include. -/
def matches_patterns (rv : String → Bool) (rs : String → String → Bool)
    (filters : List PatternFilter) (path : String) : Bool :=
  if filters.isEmpty then true
  else
    match scanFilters rv rs path filters false false false false with
    | none => false
    | some (hi, mi, he, me) =>
      if he && me then false
      else if hi then mi
      else true

/-- The decision procedure exactly as the specification words it (spec §4.3
item 3 and §8): written independently of `matches_patterns` so the two can be
compared. -/
def specDecision (rs : String → String → Bool)
    (filters : List PatternFilter) (path : String) : Bool :=
  if filters.isEmpty then true
  else if (filters.any fun f => !f.is_include) &&
          (filters.any fun f => !f.is_include && rs f.pattern path) then false
  else if filters.any fun f => f.is_include then
    filters.any fun f => f.is_include && rs f.pattern path
  else true

/-! ### Binary sniffer (TreePrinter::is_binary) -/

/-- One byte of the 512-byte sample counts as non-printable when it is below
0x20 and not tab, newline or carriage return, or when it is above 0x7E
(pptt.cpp lines 176-187; the two conditions are mutually exclusive, so the
single counter increments at most once per byte). -/
def nonPrintable (c : Nat) : Bool :=
  (decide (c < 32) && !(c == 9) && !(c == 10) && !(c == 13)) || decide (126 < c)

/-- `TreePrinter::is_binary` (pptt.cpp lines 153-191) on the bytes of an
openable file: sample the first 512 bytes, an empty read is text, any NUL
byte is binary, otherwise binary iff `non_printable * 100 / bytes_read > 30`
under integer division. -/
def is_binary_bytes (bytes : List Nat) : Bool :=
  let sample := bytes.take 512
  if sample.length = 0 then false
  else if sample.any fun b => b == 0 then true
  else decide (30 < (sample.filter nonPrintable).length * 100 / sample.length)

/-- `TreePrinter::is_binary` including the open step: a file that cannot be
opened (`none`) is assumed binary (pptt.cpp lines 154-157). -/
def is_binary (file : Option (List Nat)) : Bool :=
  match file with
  | none => true
  | some bytes => is_binary_bytes bytes

/-! ### Facts about the filter decision -/

/-- Closed form of the filter-scanning loop when every pattern is valid. -/
theorem scanFilters_eq_some (rv : String → Bool) (rs : String → String → Bool)
    (path : String) (fs : List PatternFilter) (hi mi he me : Bool)
    (hv : ∀ f ∈ fs, rv f.pattern = true) :
    scanFilters rv rs path fs hi mi he me =
      some (hi || fs.any (fun f => f.is_include),
            mi || fs.any (fun f => f.is_include && rs f.pattern path),
            he || fs.any (fun f => !f.is_include),
            me || fs.any (fun f => !f.is_include && rs f.pattern path)) := by
  induction fs generalizing hi mi he me with
  | nil => simp [scanFilters]
  | cons f fs ih =>
    have hf : rv f.pattern = true := hv f (by simp)
    have hrest : ∀ g ∈ fs, rv g.pattern = true := fun g hg => hv g (by simp [hg])
    cases hinc : f.is_include with
    | true =>
      simp only [scanFilters, hf, if_true, hinc, ih _ _ _ _ hrest, List.any_cons]
      simp [hinc, Bool.or_assoc, Bool.or_comm, Bool.or_left_comm]
    | false =>
      simp only [scanFilters, hf, if_true, hinc, ih _ _ _ _ hrest, List.any_cons]
      simp [hinc, Bool.or_assoc, Bool.or_comm, Bool.or_left_comm]

/-- Claim C1: with every supplied pattern valid, the filter decision of
`matches_patterns` is exactly the one the specification describes: empty
list includes everything; otherwise a matched exclude filter rejects
regardless of include matches; otherwise, when include filters exist, accept
iff some include filter matches; otherwise accept. -/
theorem c1_filter_decision (rv : String → Bool) (rs : String → String → Bool)
    (filters : List PatternFilter) (path : String)
    (hv : ∀ f ∈ filters, rv f.pattern = true) :
    matches_patterns rv rs filters path = specDecision rs filters path := by
  cases hemp : filters.isEmpty with
  | true => simp [matches_patterns, specDecision, hemp]
  | false =>
    unfold matches_patterns specDecision
    rw [scanFilters_eq_some rv rs path filters false false false false hv]
    simp only [hemp, Bool.false_eq_true, if_false, Bool.false_or]

/-- Witness for C1 at a concrete filter list, regex oracle and path. -/
theorem c1_filter_decision_witness :
    matches_patterns (fun _ => true) (fun pat s => pat == s)
        [⟨"a", true⟩, ⟨"b", false⟩] "a" =
      specDecision (fun pat s => pat == s) [⟨"a", true⟩, ⟨"b", false⟩] "a" :=
  c1_filter_decision (fun _ => true) (fun pat s => pat == s)
    [⟨"a", true⟩, ⟨"b", false⟩] "a" (fun _ _ => rfl)

/-! ### Facts about the binary sniffer -/

/-- Claim C4 counterexample: a 13-byte openable file with four non-printable
bytes and no NUL byte.  Strictly more than 30 percent of the sampled bytes
are non-printable (4 * 100 = 400 > 390 = 30 * 13), yet `is_binary` answers
false, because the code tests `non_printable * 100 / bytes_read > 30` with
flooring integer division (400 / 13 = 30). -/
theorem c4_is_binary_counterexample :
    is_binary (some [1, 1, 1, 1, 97, 97, 97, 97, 97, 97, 97, 97, 97]) = false ∧
    (([1, 1, 1, 1, 97, 97, 97, 97, 97, 97, 97, 97, 97].take 512).filter
        nonPrintable).length * 100 >
      30 * ([1, 1, 1, 1, 97, 97, 97, 97, 97, 97, 97, 97, 97].take 512).length ∧
    ([1, 1, 1, 1, 97, 97, 97, 97, 97, 97, 97, 97, 97].take 512).any
        (fun b => b == 0) = false ∧
    ([1, 1, 1, 1, 97, 97, 97, 97, 97, 97, 97, 97, 97].take 512).length ≠ 0 := by
  refine ⟨?_, by decide, by decide, by decide⟩
  decide

/-- For a non-empty file the length check of `is_binary_bytes` falls through
to the NUL-byte scan and the non-printable ratio test. -/
theorem is_binary_bytes_eq (bytes : List Nat) (hne : bytes ≠ []) :
    is_binary_bytes bytes =
      if (bytes.take 512).any (fun b => b == 0) then true
      else decide (30 < ((bytes.take 512).filter nonPrintable).length * 100 /
        (bytes.take 512).length) := by
  have hlen : ¬((bytes.take 512).length = 0) := by
    cases bytes with
    | nil => exact absurd rfl hne
    | cons x xs => simp [List.length_take]
  unfold is_binary_bytes
  rw [if_neg hlen]

/-- Claim C4 (amended): `is_binary` over the at-most-512-byte sample is true
for an unopenable file, false for an empty read, true when the sample holds a
NUL byte, and otherwise true iff `count * 100 / size > 30` under flooring
integer division; consequently a file of tab/newline/carriage-return and
printable ASCII only, of any length, is never binary, and a file starting
with a NUL byte always is. -/
theorem c4_is_binary_characterization :
    (is_binary none = true) ∧
    (is_binary (some []) = false) ∧
    (∀ bytes : List Nat, (bytes.take 512).any (fun b => b == 0) = true →
      is_binary (some bytes) = true) ∧
    (∀ bytes : List Nat, bytes ≠ [] →
      (bytes.take 512).any (fun b => b == 0) = false →
      (is_binary (some bytes) = true ↔
        30 < ((bytes.take 512).filter nonPrintable).length * 100 /
          (bytes.take 512).length)) ∧
    (∀ bytes : List Nat,
      (∀ b ∈ bytes, b = 9 ∨ b = 10 ∨ b = 13 ∨ (32 ≤ b ∧ b ≤ 126)) →
      is_binary (some bytes) = false) ∧
    (∀ bytes : List Nat, is_binary (some (0 :: bytes)) = true) := by
  refine ⟨rfl, by decide, ?_, ?_, ?_, ?_⟩
  · intro bytes hz
    have hne : bytes ≠ [] := by
      rcases List.any_eq_true.mp hz with ⟨b, hb, _⟩
      exact List.ne_nil_of_mem (List.mem_of_mem_take hb)
    show is_binary_bytes bytes = true
    rw [is_binary_bytes_eq bytes hne, if_pos hz]
  · intro bytes hne hz
    show is_binary_bytes bytes = true ↔ _
    rw [is_binary_bytes_eq bytes hne, if_neg (by simp [hz]), decide_eq_true_iff]
  · intro bytes hall
    by_cases hne : bytes = []
    · subst hne; decide
    · have hz : (bytes.take 512).any (fun b => b == 0) = false := by
        rw [List.any_eq_false]
        intro b hb
        have hmem : b ∈ bytes := List.mem_of_mem_take hb
        rcases hall b hmem with h | h | h | ⟨h1, h2⟩
        · subst h; decide
        · subst h; decide
        · subst h; decide
        · simp only [beq_iff_eq]; omega
      have hnp : (bytes.take 512).filter nonPrintable = [] := by
        rw [List.filter_eq_nil_iff]
        intro b hb
        have hmem : b ∈ bytes := List.mem_of_mem_take hb
        rcases hall b hmem with h | h | h | ⟨h1, h2⟩
        · subst h; decide
        · subst h; decide
        · subst h; decide
        · have h32 : decide (b < 32) = false := by simp; omega
          have h126 : decide (126 < b) = false := by simp; omega
          simp [nonPrintable, h32, h126]
      show is_binary_bytes bytes = false
      rw [is_binary_bytes_eq bytes hne, if_neg (by simp [hz]), hnp]
      simp
  · intro bytes
    have hz : ((0 :: bytes).take 512).any (fun b => b == 0) = true := by
      simp [List.take_succ_cons]
    show is_binary_bytes (0 :: bytes) = true
    rw [is_binary_bytes_eq (0 :: bytes) (by simp), if_pos hz]

/-- Witness for the conditional parts of the C4 characterization at concrete
byte lists. -/
theorem c4_is_binary_characterization_witness :
    is_binary (some [97, 0, 98]) = true ∧
    is_binary (some [7, 97]) = true ∧
    is_binary (some [104, 105, 10]) = false ∧
    is_binary (some (0 :: [97, 98])) = true := by
  refine ⟨?_, ?_, ?_, ?_⟩
  · exact c4_is_binary_characterization.2.2.1 [97, 0, 98] (by decide)
  · exact (c4_is_binary_characterization.2.2.2.1 [7, 97] (by decide)
      (by decide)).mpr (by decide)
  · exact c4_is_binary_characterization.2.2.2.2.1 [104, 105, 10] (by decide)
  · exact c4_is_binary_characterization.2.2.2.2.2 [97, 98]

/-! ### Line numbering (TreePrinter::count_digits,
TreePrinter::print_file_content_with_lines) -/

/-- The digit-counting loop body of `count_digits` (pptt.cpp lines 247-251):
`while (number > 0) \x7b number /= 10; digits++; \x7d`. -/
def digitsLoop (n : Nat) : Nat :=
  if h : n = 0 then 0
  else digitsLoop (n / 10) + 1
decreasing_by exact Nat.div_lt_self (Nat.pos_of_ne_zero h) (by omega)

/-- `TreePrinter::count_digits` (pptt.cpp lines 245-253): 0 has one digit,
otherwise count decimal digits by repeated division. -/
def count_digits (n : Nat) : Nat :=
  if n = 0 then 1 else digitsLoop n

/-- Decimal digit characters of a natural number, most significant first:
the decimal rendering `std::ostream` uses for `int` values. -/
def natDigits (n : Nat) : List Char :=
  if _h : n < 10 then [Nat.digitChar n]
  else natDigits (n / 10) ++ [Nat.digitChar (n % 10)]
decreasing_by exact Nat.div_lt_self (by omega) (by omega)

/-- Decimal string of a line number. -/
def decimalStr (n : Nat) : String :=
  String.mk (natDigits n)

/-- `std::setw(width)` over the default space fill: left-pad to `width`
characters (never truncates). -/
def padLeft (width : Nat) (s : String) : String :=
  String.mk (List.replicate (width - s.length) ' ') ++ s

/-- `TreePrinter::print_file_content_with_lines` (pptt.cpp lines 255-289) on
the lines of the file: an unopenable file renders as the single error line;
without `-n` the raw lines are dumped; with `-n` the first pass counts the
lines, the width is `count_digits total`, and each line is prefixed with the
right-aligned line number and a colon-space. -/
def print_file_content_with_lines (showNums : Bool) (canOpen : Bool)
    (body : List String) : List String :=
  if !canOpen then ["Error: Could not open file"]
  else if !showNums then body
  else
    let width := count_digits body.length
    body.enum.map fun il => padLeft width (decimalStr (il.1 + 1)) ++ ": " ++ il.2

/-! ### Digit-count lemmas -/

/-- Unfolding equation of the digit loop at zero. -/
theorem digitsLoop_zero : digitsLoop 0 = 0 := by
  rw [digitsLoop]
  simp

/-- Unfolding equation of the digit loop at a positive number. -/
theorem digitsLoop_pos (n : Nat) (h : n ≠ 0) :
    digitsLoop n = digitsLoop (n / 10) + 1 := by
  rw [digitsLoop]
  simp [h]

/-- Unfolding equation of the decimal rendering below ten. -/
theorem natDigits_small (n : Nat) (h : n < 10) :
    natDigits n = [Nat.digitChar n] := by
  rw [natDigits]
  simp [h]

/-- Unfolding equation of the decimal rendering at ten and above. -/
theorem natDigits_big (n : Nat) (h : ¬ n < 10) :
    natDigits n = natDigits (n / 10) ++ [Nat.digitChar (n % 10)] := by
  rw [natDigits]
  simp [h]

/-- The digit loop agrees with the length of the decimal rendering on
positive numbers. -/
theorem natDigits_length (n : Nat) (hpos : 0 < n) :
    (natDigits n).length = digitsLoop n := by
  induction n using Nat.strong_induction_on with
  | _ n ih =>
    by_cases h10 : n < 10
    · rw [natDigits_small n h10, digitsLoop_pos n (by omega),
        Nat.div_eq_of_lt h10, digitsLoop_zero]
      simp
    · have hdiv : 0 < n / 10 := Nat.div_pos (by omega) (by omega)
      rw [natDigits_big n h10, digitsLoop_pos n (by omega), List.length_append,
        ih (n / 10) (Nat.div_lt_self (by omega) (by omega)) hdiv]
      simp

/-- The digit loop is monotone. -/
theorem digitsLoop_mono (m n : Nat) (h : m ≤ n) : digitsLoop m ≤ digitsLoop n := by
  induction n using Nat.strong_induction_on generalizing m with
  | _ n ih =>
    by_cases hm : m = 0
    · subst hm
      rw [digitsLoop_zero]
      exact Nat.zero_le _
    · have hn : n ≠ 0 := by omega
      rw [digitsLoop_pos m hm, digitsLoop_pos n hn]
      have hle : m / 10 ≤ n / 10 := Nat.div_le_div_right h
      exact Nat.succ_le_succ
        (ih (n / 10) (Nat.div_lt_self (by omega) (by omega)) (m / 10) hle)

/-- The padded line-number field has exactly the requested width whenever the
number has at most `width` digits. -/
theorem padLeft_length (width : Nat) (s : String) (h : s.length ≤ width) :
    (padLeft width s).length = width := by
  unfold padLeft
  rw [String.length_append, String.length_mk, List.length_replicate]
  omega

/-- Claim C9: with line numbering on, the i-th emitted content line is the
original line prefixed by the right-aligned decimal line number i+1 padded to
a field whose width is the digit count of the total line count, followed by
a colon and a space; a 9-line file uses width 1, a 10-line file width 2, and
an empty file would use width 1. -/
theorem c9_line_number_width (body : List String) (i : Nat) (h : i < body.length) :
    (print_file_content_with_lines true true body)[i]? =
      some (padLeft (count_digits body.length) (decimalStr (i + 1)) ++ ": " ++
        body[i]) ∧
    (padLeft (count_digits body.length) (decimalStr (i + 1))).length =
      count_digits body.length ∧
    count_digits 9 = 1 ∧ count_digits 10 = 2 ∧ count_digits 0 = 1 := by
  have h9 : count_digits 9 = 1 := by
    rw [count_digits, if_neg (by omega), digitsLoop_pos 9 (by omega)]
    norm_num [digitsLoop_zero]
  have h10 : count_digits 10 = 2 := by
    rw [count_digits, if_neg (by omega), digitsLoop_pos 10 (by omega)]
    norm_num [digitsLoop_pos 1 (by omega), digitsLoop_zero]
  have h0 : count_digits 0 = 1 := by
    rw [count_digits, if_pos rfl]
  refine ⟨?_, ?_, h9, h10, h0⟩
  · unfold print_file_content_with_lines
    simp only [Bool.not_true, Bool.false_eq_true, if_false, List.getElem?_map,
      List.getElem?_enum, List.getElem?_eq_getElem h, Option.map_some']
  · apply padLeft_length
    have hlen : (decimalStr (i + 1)).length = digitsLoop (i + 1) := by
      rw [decimalStr, String.length_mk, natDigits_length (i + 1) (by omega)]
    rw [hlen, count_digits, if_neg (by omega)]
    exact digitsLoop_mono (i + 1) body.length (by omega)

/-- Witness for C9 on a concrete two-line file at line index 1. -/
theorem c9_line_number_width_witness :
    (print_file_content_with_lines true true ["alpha", "beta"])[1]? =
      some (padLeft (count_digits 2) (decimalStr 2) ++ ": " ++ "beta") ∧
    (padLeft (count_digits 2) (decimalStr 2)).length = count_digits 2 ∧
    count_digits 9 = 1 ∧ count_digits 10 = 2 ∧ count_digits 0 = 1 :=
  c9_line_number_width ["alpha", "beta"] 1 (by decide)

/-! ### Comment styles (struct CommentStyle, TreePrinter::get_comment_style,
TreePrinter::print_file_content framing) -/

/-- `struct CommentStyle` (pptt.cpp lines 23-28). -/
structure CommentStyle where
  single_line : String
  multi_start : String
  multi_end : String
  has_comments : Bool
deriving DecidableEq, Repr

/-- The static extension table of `TreePrinter` (pptt.cpp lines 39-72). -/
def comment_styles : List (String × CommentStyle) := [
  (".cpp", ⟨"//", "/*", "*/", true⟩),
  (".c", ⟨"//", "/*", "*/", true⟩),
  (".h", ⟨"//", "/*", "*/", true⟩),
  (".hpp", ⟨"//", "/*", "*/", true⟩),
  (".swift", ⟨"//", "/*", "*/", true⟩),
  (".sh", ⟨"#", "", "", true⟩),
  (".bash", ⟨"#", "", "", true⟩),
  (".py", ⟨"#", "\x27\x27\x27", "\x27\x27\x27", true⟩),
  (".js", ⟨"//", "/*", "*/", true⟩),
  (".ts", ⟨"//", "/*", "*/", true⟩),
  (".java", ⟨"//", "/*", "*/", true⟩),
  (".cs", ⟨"//", "/*", "*/", true⟩),
  (".go", ⟨"//", "/*", "*/", true⟩),
  (".php", ⟨"//", "/*", "*/", true⟩),
  (".rb", ⟨"#", "=begin", "=end", true⟩),
  (".rs", ⟨"//", "/*", "*/", true⟩),
  (".lua", ⟨"--", "--[[", "]]", true⟩),
  (".html", ⟨"", "<!--", "-->", true⟩),
  (".xml", ⟨"", "<!--", "-->", true⟩),
  (".yaml", ⟨"#", "", "", true⟩),
  (".yml", ⟨"#", "", "", true⟩),
  (".json", ⟨"", "", "", false⟩),
  (".ini", ⟨"#", "", "", true⟩),
  (".sql", ⟨"--", "/*", "*/", true⟩),
  (".tex", ⟨"%", "", "", true⟩),
  (".md", ⟨"", "", "", false⟩),
  (".cmake", ⟨"#", "", "", true⟩),
  (".txt", ⟨"", "", "", false⟩),
  (".proto", ⟨"//", "/*", "*/", true⟩),
  (".ex", ⟨"#", "", "", true⟩),
  (".exs", ⟨"#", "", "", true⟩),
  (".pl", ⟨"#", "", "", true⟩)]

/-- Index of the last dot in a character list, if any. -/
def lastDotIdx (cs : List Char) : Option Nat :=
  ((cs.enum.filter fun p => p.2 == '.').getLast?).map fun p => p.1

/-- `std::filesystem::path::extension` on a plain filename: empty for "." and
"..", empty when there is no dot or when the only dot starts the name
(a dotfile), otherwise the suffix from the last dot on. -/
def extOf (name : String) : String :=
  if name = "." || name = ".." then ""
  else
    match lastDotIdx name.toList with
    | none => ""
    | some 0 => ""
    | some i => String.mk (name.toList.drop i)

/-- `std::transform` with `::tolower` over the extension characters. -/
def strLower (s : String) : String :=
  String.mk (s.data.map Char.toLower)

/-- Insertion into the `std::set` of unknown extensions, modelled as a
duplicate-free list. -/
def setInsert (x : String) (s : List String) : List String :=
  if x ∈ s then s else x :: s

/-- `TreePrinter::get_comment_style` (pptt.cpp lines 135-151) on the
lower-cased extension, threading the mutable `unknown_extensions` set:
a known extension returns its table entry, an unknown non-empty extension
other than a bare dot is recorded, and the fallback style has no comments. -/
def get_comment_style (rawExt : String) (unk : List String) :
    CommentStyle × List String :=
  let ext := strLower rawExt
  match comment_styles.lookup ext with
  | some style => (style, unk)
  | none =>
    (⟨"", "", "", false⟩,
      if ext ≠ "" && ext ≠ "." then setInsert ext unk else unk)

/-- A run of `n` equals signs, as the divider literals of the source spell
them out. -/
def eqRun (n : Nat) : String :=
  String.mk (List.replicate n '=')

/-- A run of `n` dashes. -/
def dashRun (n : Nat) : String :=
  String.mk (List.replicate n '-')

/-- The three header lines printed before a rendered file body
(pptt.cpp lines 313-323 and 387-397): marker-prefixed when the style has a
usable single-line marker, otherwise the unmarked fallback. -/
def blockHeader (style : CommentStyle) (dp : String) : List String :=
  if style.has_comments && !(style.single_line == "") then
    [style.single_line ++ (" " ++ eqRun 56),
     style.single_line ++ "  File: " ++ dp,
     style.single_line ++ ("  <content> " ++ dashRun 46)]
  else
    [(eqRun 35),
     "File: " ++ dp,
     ("<content> " ++ dashRun 25)]

/-- The single closing line printed after a rendered file body
(pptt.cpp lines 327-331 and 401-405). -/
def blockFooter (style : CommentStyle) : List String :=
  if style.has_comments && !(style.single_line == "") then
    [style.single_line ++ ("  </content> " ++ dashRun 46)]
  else
    [("</content> " ++ dashRun 24)]

/-- One content block of `TreePrinter::print_file_content` (pptt.cpp lines
302-333): a blank line, the header, the body (through
`print_file_content_with_lines`), the closing tag line, a blank line. -/
def fileBlock (showNums : Bool) (canOpen : Bool) (style : CommentStyle)
    (dp : String) (body : List String) : List String :=
  [""] ++ blockHeader style dp ++
    print_file_content_with_lines showNums canOpen body ++
    blockFooter style ++ [""]

/-! ### Facts about the content framing -/

/-- Claim C8 counterexample: for the `.cpp` style the code emits exactly ONE
marker-prefixed line after the body (the close tag), not two as claimed; the
only other trailing line of a block is the unmarked blank separator. -/
theorem c8_footer_counterexample :
    blockFooter (get_comment_style ".cpp" []).1 =
      ["//" ++ ("  </content> " ++ dashRun 46)] ∧
    (blockFooter (get_comment_style ".cpp" []).1).length = 1 ∧
    (1 : Nat) ≠ 2 := by
  refine ⟨by decide, by decide, by decide⟩

/-- Claim C8 (amended): a style with a usable single-line marker frames the
body with exactly three marker-prefixed lines before it (divider, File
header, content open tag) and exactly one marker-prefixed line after it (the
content close tag), the block being wrapped in unmarked blank lines; a style
with no usable marker gets the unmarked header and footer of the same
shape. -/
theorem c8_block_framing (showNums canOpen : Bool) (style : CommentStyle)
    (dp : String) (body : List String) :
    (style.has_comments = true → style.single_line ≠ "" →
      fileBlock showNums canOpen style dp body =
        [""] ++
        [style.single_line ++ (" " ++ eqRun 56),
         style.single_line ++ "  File: " ++ dp,
         style.single_line ++ ("  <content> " ++ dashRun 46)] ++
        print_file_content_with_lines showNums canOpen body ++
        [style.single_line ++ ("  </content> " ++ dashRun 46)] ++ [""] ∧
      (blockHeader style dp).length = 3 ∧ (blockFooter style).length = 1) ∧
    (style.has_comments = false ∨ style.single_line = "" →
      fileBlock showNums canOpen style dp body =
        [""] ++
        [(eqRun 35),
         "File: " ++ dp,
         ("<content> " ++ dashRun 25)] ++
        print_file_content_with_lines showNums canOpen body ++
        [("</content> " ++ dashRun 24)] ++ [""] ∧
      (blockHeader style dp).length = 3 ∧ (blockFooter style).length = 1) := by
  constructor
  · intro hc hs
    have hcond : (style.has_comments && !(style.single_line == "")) = true := by
      rw [hc, beq_eq_false_iff_ne.mpr hs]
      rfl
    refine ⟨?_, ?_, ?_⟩ <;> simp [fileBlock, blockHeader, blockFooter, hcond]
  · intro hc
    have hcond : (style.has_comments && !(style.single_line == "")) = false := by
      rcases hc with hc | hc
      · rw [hc]
        rfl
      · rw [hc]
        simp
    refine ⟨?_, ?_, ?_⟩ <;> simp [fileBlock, blockHeader, blockFooter, hcond]

/-- Witness for C8 on the `.cpp` style with a one-line body. -/
theorem c8_block_framing_witness :
    fileBlock false true ⟨"//", "/*", "*/", true⟩ "r/a.cpp" ["x"] =
      [""] ++
      ["//" ++ (" " ++ eqRun 56),
       "//" ++ "  File: " ++ "r/a.cpp",
       "//" ++ ("  <content> " ++ dashRun 46)] ++
      print_file_content_with_lines false true ["x"] ++
      ["//" ++ ("  </content> " ++ dashRun 46)] ++ [""] ∧
    (blockHeader ⟨"//", "/*", "*/", true⟩ "r/a.cpp").length = 3 ∧
    (blockFooter ⟨"//", "/*", "*/", true⟩).length = 1 :=
  (c8_block_framing false true ⟨"//", "/*", "*/", true⟩ "r/a.cpp" ["x"]).1
    rfl (by decide)

/-! ### Filesystem model -/

/-- One directory entry of the modelled filesystem: a regular file with its
byte content, or a directory with its children and a flag telling whether
listing it succeeds (false models a `filesystem_error` from
`fs::directory_iterator`). -/
inductive Entry where
  | file (name : String) (bytes : List Nat)
  | dir (name : String) (readable : Bool) (children : List Entry)
deriving Repr

/-- `entry.path().filename()`. -/
def Entry.name : Entry → String
  | .file n _ => n
  | .dir n _ _ => n

/-- The hidden-entry test `filename[0] == '.'` (pptt.cpp lines 204-205 and
344-348); an empty name reads as the NUL character and is not hidden. -/
def isHiddenName (n : String) : Bool :=
  match n.data with
  | [] => false
  | c :: _ => c == '.'

/-- Rendering of a relative path from its components, separated by forward
slashes as `matches_patterns` normalizes them. -/
def relStr : List String → String
  | [] => ""
  | [n] => n
  | n :: rest => n ++ "/" ++ relStr rest

/-- `std::string operator<`: lexicographic comparison of the character
sequences. -/
def charListLt : List Char → List Char → Bool
  | [], [] => false
  | [], _ :: _ => true
  | _ :: _, [] => false
  | a :: as, b :: bs =>
    if a.val < b.val then true
    else if b.val < a.val then false
    else charListLt as bs

/-- String comparison used by the entry sort (pptt.cpp lines 215-218). -/
def strLt (a b : String) : Bool :=
  charListLt a.data b.data

/-- `std::filesystem::path operator<`: componentwise lexicographic
comparison, used when `print_file_content` sorts the visible files. -/
def pathListLt : List String → List String → Bool
  | [], [] => false
  | [], _ :: _ => true
  | _ :: _, [] => false
  | a :: as, b :: bs =>
    if strLt a b then true
    else if strLt b a then false
    else pathListLt as bs

/-- Insertion step of the entry sort by filename. -/
def insertEntry (e : Entry) : List Entry → List Entry
  | [] => [e]
  | x :: xs => if strLt e.name x.name then e :: x :: xs else x :: insertEntry e xs

/-- The `std::sort` of directory entries by filename (pptt.cpp lines
215-218), realized as an insertion sort (any comparison sort agrees on
distinct filesystem names). -/
def sortEntries : List Entry → List Entry
  | [] => []
  | e :: es => insertEntry e (sortEntries es)

/-- A path paired with the bytes of the file found there. -/
abbrev PathFile := List String × List Nat

/-- Insertion step of the visible-file sort by full path. -/
def insertFile (x : PathFile) : List PathFile → List PathFile
  | [] => [x]
  | y :: ys => if pathListLt x.1 y.1 then x :: y :: ys else y :: insertFile x ys

/-- The `std::sort` of collected visible files (pptt.cpp lines 298-299). -/
def sortFiles : List PathFile → List PathFile
  | [] => []
  | x :: xs => insertFile x (sortFiles xs)

/-- Insertion step of the sorted display of the unknown-extension set. -/
def insertString (x : String) : List String → List String
  | [] => [x]
  | y :: ys => if strLt x y then x :: y :: ys else y :: insertString x ys

/-- Sorted iteration order of `std::set<std::string>`. -/
def sortStrings : List String → List String
  | [] => []
  | x :: xs => insertString x (sortStrings xs)

mutual
/-- All files of an entry with their paths relative to the enclosing
directory (hidden ones included): the abstract content of the tree, used to
state what the walk may reach. -/
def entryFiles : Entry → List PathFile
  | .file n bytes => [([n], bytes)]
  | .dir n _ children => (filesOf children).map fun pc => (n :: pc.1, pc.2)

/-- `entryFiles` over a child list. -/
def filesOf : List Entry → List PathFile
  | [] => []
  | e :: es => entryFiles e ++ filesOf es
end

mutual
/-- Every directory inside the entry, at every depth, is readable. -/
def allReadableEntry : Entry → Bool
  | .file _ _ => true
  | .dir _ r children => r && allReadable children

/-- `allReadableEntry` over a child list. -/
def allReadable : List Entry → Bool
  | [] => true
  | e :: es => allReadableEntry e && allReadable es
end

/-! ### Size lemmas for termination -/

/-- Inserting adds exactly the size of one entry plus the cons cell. -/
theorem sizeOf_insertEntry (e : Entry) (l : List Entry) :
    sizeOf (insertEntry e l) = 1 + sizeOf e + sizeOf l := by
  induction l with
  | nil => simp [insertEntry]
  | cons x xs ih =>
    simp only [insertEntry]
    by_cases h : strLt e.name x.name = true
    · simp only [h, if_true]
      simp
    · simp only [h, if_false, Bool.false_eq_true]
      simp [ih]
      omega

/-- Sorting the entries preserves their total size. -/
theorem sizeOf_sortEntries (l : List Entry) : sizeOf (sortEntries l) = sizeOf l := by
  induction l with
  | nil => rfl
  | cons x xs ih =>
    simp only [sortEntries, sizeOf_insertEntry, ih]
    simp

/-- Filtering never grows the total size. -/
theorem sizeOf_filter_le (p : Entry → Bool) (l : List Entry) :
    sizeOf (l.filter p) ≤ sizeOf l := by
  induction l with
  | nil => simp
  | cons x xs ih =>
    by_cases h : p x = true
    · simp only [List.filter_cons, h, if_true]
      simp
      omega
    · simp only [List.filter_cons, h, if_false, Bool.false_eq_true]
      simp
      omega

/-! ### The lookahead (TreePrinter::directory_contains_matches) -/

/-- The scanning loop of `directory_contains_matches` (pptt.cpp lines
342-362) over a child list: skip hidden names, succeed on any entry whose
relative path matches, recurse into subdirectories, and treat an unreadable
subdirectory as possibly containing matches (the `catch` at lines 363-366
returns true). -/
def containsList (mp : String → Bool) (rel : List String) : List Entry → Bool
  | [] => false
  | .file n _ :: es =>
    (!isHiddenName n && mp (relStr (rel ++ [n]))) || containsList mp rel es
  | .dir n r children :: es =>
    (!isHiddenName n &&
      (mp (relStr (rel ++ [n])) ||
        (if r then containsList mp (rel ++ [n]) children else true))) ||
    containsList mp rel es

/-- `TreePrinter::directory_contains_matches` (pptt.cpp lines 337-369) on a
directory with readability flag `r`: an unreadable directory is assumed to
contain matches. -/
def containsMatches (mp : String → Bool) (rel : List String) (r : Bool)
    (children : List Entry) : Bool :=
  if r then containsList mp rel children else true

/-! ### The walk (TreePrinter::print_tree) -/

/-- Observable outcome of one `print_tree` call: the structure lines printed
to standard output, the error reports printed to standard error, and the
collected `visible_files`. -/
structure WalkOut where
  lines : List String
  errs : List String
  files : List PathFile
deriving Repr, DecidableEq

/-- Concatenation of walk outcomes, entry after entry. -/
def WalkOut.app (a b : WalkOut) : WalkOut :=
  ⟨a.lines ++ b.lines, a.errs ++ b.errs, a.files ++ b.files⟩

@[simp] theorem WalkOut.app_lines (a b : WalkOut) :
    (a.app b).lines = a.lines ++ b.lines := rfl

@[simp] theorem WalkOut.app_errs (a b : WalkOut) :
    (a.app b).errs = a.errs ++ b.errs := rfl

@[simp] theorem WalkOut.app_files (a b : WalkOut) :
    (a.app b).files = a.files ++ b.files := rfl

mutual
/-- The per-entry body of the loop at pptt.cpp lines 221-242: a matching
directory prints its own line and is recursed into with a deeper indent; a
non-matching directory is recursed into with the same indent when the
lookahead finds a possible match, and skipped otherwise; a matching file
prints its line and joins `visible_files`. -/
def walkEntry (mp : String → Bool) (rel : List String) (pre : String) :
    Entry → WalkOut
  | .file n bytes =>
    if mp (relStr (rel ++ [n])) then
      ⟨[pre ++ "|_ " ++ n], [], [(rel ++ [n], bytes)]⟩
    else ⟨[], [], []⟩
  | .dir n r children =>
    if mp (relStr (rel ++ [n])) then
      let w := walkDir mp (rel ++ [n]) (pre ++ "|     ") r children
      ⟨(pre ++ "|_ " ++ n) :: w.lines, w.errs, w.files⟩
    else if containsMatches mp (rel ++ [n]) r children then
      walkDir mp (rel ++ [n]) pre r children
    else ⟨[], [], []⟩
termination_by e => sizeOf e

/-- One `print_tree` call on the directory at relative path `rel` with
readability `r`: an unreadable directory reports its error and contributes
nothing (pptt.cpp lines 201-212); a readable one drops hidden entries, sorts
the rest by filename, and processes them in order. -/
def walkDir (mp : String → Bool) (rel : List String) (pre : String) (r : Bool)
    (children : List Entry) : WalkOut :=
  if r then
    walkSorted mp rel pre (sortEntries (children.filter fun e => !isHiddenName e.name))
  else ⟨[], ["Error reading directory " ++ relStr rel], []⟩
termination_by sizeOf children + 1
decreasing_by
  calc sizeOf (sortEntries (children.filter fun e => !isHiddenName e.name))
      = sizeOf (children.filter fun e => !isHiddenName e.name) :=
        sizeOf_sortEntries _
    _ ≤ sizeOf children := sizeOf_filter_le _ _
    _ < sizeOf children + 1 := Nat.lt_succ_self _

/-- The loop of pptt.cpp lines 221-242 over the sorted entries. -/
def walkSorted (mp : String → Bool) (rel : List String) (pre : String) :
    List Entry → WalkOut
  | [] => ⟨[], [], []⟩
  | e :: es => (walkEntry mp rel pre e).app (walkSorted mp rel pre es)
termination_by l => sizeOf l
end

/-! ### Membership lemmas for the sorts and the walk -/

/-- Insertion preserves the members. -/
theorem mem_insertEntry (x e : Entry) (l : List Entry) :
    x ∈ insertEntry e l ↔ x = e ∨ x ∈ l := by
  induction l with
  | nil => simp [insertEntry]
  | cons y ys ih =>
    by_cases h : strLt e.name y.name = true
    · simp [insertEntry, h]
    · simp only [insertEntry, h, if_false, Bool.false_eq_true, List.mem_cons, ih]
      tauto

/-- Sorting preserves the members. -/
theorem mem_sortEntries (x : Entry) (l : List Entry) :
    x ∈ sortEntries l ↔ x ∈ l := by
  induction l with
  | nil => simp [sortEntries]
  | cons y ys ih => simp [sortEntries, mem_insertEntry, ih]

/-- File-sort insertion preserves the members. -/
theorem mem_insertFile (x y : PathFile) (l : List PathFile) :
    x ∈ insertFile y l ↔ x = y ∨ x ∈ l := by
  induction l with
  | nil => simp [insertFile]
  | cons z zs ih =>
    by_cases h : pathListLt y.1 z.1 = true
    · simp [insertFile, h]
    · simp only [insertFile, h, if_false, Bool.false_eq_true, List.mem_cons, ih]
      tauto

/-- The file sort preserves the members. -/
theorem mem_sortFiles (x : PathFile) (l : List PathFile) :
    x ∈ sortFiles l ↔ x ∈ l := by
  induction l with
  | nil => simp [sortFiles]
  | cons y ys ih => simp [sortFiles, mem_insertFile, ih]

/-- Membership in the file listing decomposes entry by entry. -/
theorem mem_filesOf (x : PathFile) (l : List Entry) :
    x ∈ filesOf l ↔ ∃ e ∈ l, x ∈ entryFiles e := by
  induction l with
  | nil => simp [filesOf]
  | cons e es ih => simp [filesOf, ih]

/-- Membership in the walked files decomposes entry by entry. -/
theorem mem_walkSorted_files (mp : String → Bool) (rel : List String)
    (pre : String) (l : List Entry) (x : PathFile) :
    x ∈ (walkSorted mp rel pre l).files ↔
      ∃ e ∈ l, x ∈ (walkEntry mp rel pre e).files := by
  induction l with
  | nil => simp [walkSorted]
  | cons e es ih => simp [walkSorted, ih]

/-- A line emitted for one entry is emitted by the loop over any list
containing it. -/
theorem mem_walkSorted_lines (mp : String → Bool) (rel : List String)
    (pre : String) (l : List Entry) (e : Entry) (s : String)
    (he : e ∈ l) (hs : s ∈ (walkEntry mp rel pre e).lines) :
    s ∈ (walkSorted mp rel pre l).lines := by
  induction l with
  | nil => cases he
  | cons y ys ih =>
    rcases List.mem_cons.mp he with h | h
    · subst h
      simp [walkSorted, hs]
    · simp [walkSorted, ih h]

/-- Readability of a list gives readability of each member. -/
theorem allReadable_mem (l : List Entry) (e : Entry)
    (hl : allReadable l = true) (he : e ∈ l) : allReadableEntry e = true := by
  induction l with
  | nil => cases he
  | cons y ys ih =>
    simp only [allReadable, Bool.and_eq_true] at hl
    rcases List.mem_cons.mp he with h | h
    · subst h
      exact hl.1
    · exact ih hl.2 h

/-- A list of entries always has positive size. -/
theorem one_le_sizeOf_entryList (l : List Entry) : 1 ≤ sizeOf l := by
  cases l <;> simp_arith

/-- The children are smaller than their directory. -/
theorem sizeOf_children_lt (n : String) (r : Bool) (children : List Entry) :
    sizeOf children < sizeOf (Entry.dir n r children) := by
  simp

/-! ### Correctness of the lookahead and the walk -/

/-- Per-entry success test of the lookahead scan. -/
def containsHit (mp : String → Bool) (rel : List String) (e : Entry) : Bool :=
  !isHiddenName e.name &&
    (mp (relStr (rel ++ [e.name])) ||
      match e with
      | .dir n r gc => if r then containsList mp (rel ++ [n]) gc else true
      | .file _ _ => false)

/-- The lookahead scan succeeds iff some entry of the list passes the
per-entry test. -/
theorem containsList_eq_any (mp : String → Bool) (rel : List String)
    (l : List Entry) :
    containsList mp rel l = l.any (containsHit mp rel) := by
  induction l with
  | nil => simp [containsList]
  | cons e es ih =>
    cases e with
    | file n bytes => simp [containsList, containsHit, ih, Entry.name]
    | dir n r gc => simp [containsList, containsHit, ih, Entry.name]

/-- Unfolding equation: files of a plain file entry. -/
theorem entryFiles_file (n : String) (b : List Nat) :
    entryFiles (.file n b) = [([n], b)] := by
  rw [entryFiles]

/-- Unfolding equation: files of a directory entry. -/
theorem entryFiles_dir (n : String) (r : Bool) (gc : List Entry) :
    entryFiles (.dir n r gc) = (filesOf gc).map fun pc => (n :: pc.1, pc.2) := by
  rw [entryFiles]

/-- Unfolding equation: the file listing of an empty child list. -/
theorem filesOf_nil : filesOf [] = [] := by
  rw [filesOf]

/-- Unfolding equation: the file listing of a non-empty child list. -/
theorem filesOf_cons (e : Entry) (es : List Entry) :
    filesOf (e :: es) = entryFiles e ++ filesOf es := by
  rw [filesOf]

/-- Unfolding equation: a plain file is always readable. -/
theorem allReadableEntry_file (n : String) (b : List Nat) :
    allReadableEntry (.file n b) = true := by
  rw [allReadableEntry]

/-- Unfolding equation: readability of an empty child list. -/
theorem allReadable_nil : allReadable [] = true := by
  rw [allReadable]

/-- Unfolding equation: readability of a non-empty child list. -/
theorem allReadable_cons (e : Entry) (es : List Entry) :
    allReadable (e :: es) = (allReadableEntry e && allReadable es) := by
  rw [allReadable]

/-- Whenever the children hold a non-hidden matching descendant file, the
lookahead scan reports a possible match. -/
theorem containsList_complete (mp : String → Bool) :
    ∀ (N : Nat) (children : List Entry), sizeOf children ≤ N →
    ∀ (rel p : List String) (bytes : List Nat),
      (p, bytes) ∈ filesOf children →
      (∀ m ∈ p, isHiddenName m = false) →
      mp (relStr (rel ++ p)) = true →
      containsList mp rel children = true := by
  intro N
  induction N with
  | zero =>
    intro children h
    exact absurd h (by have := one_le_sizeOf_entryList children; omega)
  | succ N ih =>
    intro children hN rel p bytes hmem hnh hmp
    rcases (mem_filesOf _ _).mp hmem with ⟨e, he, hef⟩
    rw [containsList_eq_any]
    refine List.any_eq_true.mpr ⟨e, he, ?_⟩
    cases e with
    | file n b =>
      rw [entryFiles_file] at hef
      simp only [List.mem_singleton, Prod.mk.injEq] at hef
      obtain ⟨hp, _⟩ := hef
      subst hp
      have hhid : isHiddenName n = false := hnh n (by simp)
      simp [containsHit, Entry.name, hhid, hmp]
    | dir n r gc =>
      rw [entryFiles_dir] at hef
      simp only [List.mem_map, Prod.mk.injEq] at hef
      rcases hef with ⟨⟨p', b'⟩, hmem', hn, hb⟩
      have hp : p = n :: p' := hn.symm
      subst hp
      have hhid : isHiddenName n = false := hnh n (by simp)
      cases r with
      | false => simp [containsHit, Entry.name, hhid]
      | true =>
        have hsz : sizeOf gc ≤ N := by
          have h1 := List.sizeOf_lt_of_mem he
          have h2 := sizeOf_children_lt n true gc
          omega
        have hmp' : mp (relStr ((rel ++ [n]) ++ p')) = true := by
          rw [List.append_assoc]
          simpa using hmp
        have hnh' : ∀ m ∈ p', isHiddenName m = false := fun m hm =>
          hnh m (by simp [hm])
        have hcl := ih gc hsz (rel ++ [n]) p' b' (by simpa using hmem') hnh' hmp'
        simp [containsHit, Entry.name, hhid, hcl]

/-- Every file collected by the walk lies under the walked directory, is a
non-hidden file of the tree, and matched the filter at its relative path. -/
theorem walkDir_files_sound (mp : String → Bool) :
    ∀ (N : Nat) (children : List Entry), sizeOf children ≤ N →
    ∀ (rel : List String) (pre : String) (r : Bool) (x : PathFile),
      x ∈ (walkDir mp rel pre r children).files →
      ∃ p bytes, x = (rel ++ p, bytes) ∧ (p, bytes) ∈ filesOf children ∧
        (∀ m ∈ p, isHiddenName m = false) ∧ mp (relStr (rel ++ p)) = true := by
  intro N
  induction N with
  | zero =>
    intro children h
    exact absurd h (by have := one_le_sizeOf_entryList children; omega)
  | succ N ih =>
    intro children hN rel pre r x hx
    cases r with
    | false => simp [walkDir] at hx
    | true =>
      rw [walkDir, if_pos rfl] at hx
      rcases (mem_walkSorted_files mp rel pre _ x).mp hx with ⟨e, hesort, hex⟩
      have hefil : e ∈ children.filter fun e => !isHiddenName e.name :=
        (mem_sortEntries _ _).mp hesort
      have hechild : e ∈ children := List.mem_of_mem_filter hefil
      have hehid : isHiddenName e.name = false := by
        have := List.of_mem_filter hefil
        simpa using this
      cases e with
      | file n bytes =>
        simp only [Entry.name] at hehid
        by_cases hmp : mp (relStr (rel ++ [n])) = true
        · simp only [walkEntry, hmp, if_true, List.mem_singleton] at hex
          refine ⟨[n], bytes, hex, ?_, ?_, hmp⟩
          · exact (mem_filesOf _ _).mpr ⟨_, hechild, by rw [entryFiles_file]; simp⟩
          · intro m hm
            simp only [List.mem_singleton] at hm
            subst hm
            exact hehid
        · simp only [walkEntry, hmp, Bool.false_eq_true, if_false,
            List.not_mem_nil] at hex
      | dir n r' gc =>
        simp only [Entry.name] at hehid
        have hsz : sizeOf gc ≤ N := by
          have h1 := List.sizeOf_lt_of_mem hechild
          have h2 := sizeOf_children_lt n r' gc
          omega
        have key : x ∈ (walkDir mp (rel ++ [n]) (pre ++ "|     ") r' gc).files ∨
            x ∈ (walkDir mp (rel ++ [n]) pre r' gc).files := by
          by_cases hmp : mp (relStr (rel ++ [n])) = true
          · left
            simpa [walkEntry, hmp] using hex
          · by_cases hcm : containsMatches mp (rel ++ [n]) r' gc = true
            · right
              simpa [walkEntry, hmp, hcm] using hex
            · simp only [walkEntry, hmp, hcm, Bool.false_eq_true, if_false,
                List.not_mem_nil] at hex
        have step :
            ∀ pre2 : String, x ∈ (walkDir mp (rel ++ [n]) pre2 r' gc).files →
            ∃ p bytes, x = (rel ++ p, bytes) ∧ (p, bytes) ∈ filesOf children ∧
              (∀ m ∈ p, isHiddenName m = false) ∧
              mp (relStr (rel ++ p)) = true := by
          intro pre2 hx2
          rcases ih gc hsz (rel ++ [n]) pre2 r' x hx2 with
            ⟨p', bytes', hxeq, hmem', hnh', hmp'⟩
          refine ⟨n :: p', bytes', ?_, ?_, ?_, ?_⟩
          · rw [hxeq, List.append_assoc]
            simp
          · refine (mem_filesOf _ _).mpr ⟨_, hechild, ?_⟩
            rw [entryFiles_dir]
            exact List.mem_map.mpr ⟨(p', bytes'), hmem', rfl⟩
          · intro m hm
            rcases List.mem_cons.mp hm with h | h
            · subst h
              exact hehid
            · exact hnh' m h
          · rw [show rel ++ n :: p' = (rel ++ [n]) ++ p' by
              rw [List.append_assoc]; simp]
            exact hmp'
        rcases key with h | h
        · exact step _ h
        · exact step _ h

/-- Unfolding equation: readability of a directory entry. -/
theorem allReadableEntry_dir (n : String) (r : Bool) (gc : List Entry) :
    allReadableEntry (.dir n r gc) = (r && allReadable gc) := by
  rw [allReadableEntry]

/-- Paths listed by `filesOf` are never empty. -/
theorem filesOf_path_ne_nil (l : List Entry) (p : List String) (b : List Nat)
    (h : (p, b) ∈ filesOf l) : p ≠ [] := by
  rcases (mem_filesOf _ _).mp h with ⟨e, _, hef⟩
  cases e with
  | file n bytes =>
    rw [entryFiles_file] at hef
    simp only [List.mem_singleton, Prod.mk.injEq] at hef
    simp [hef.1]
  | dir n r gc =>
    rw [entryFiles_dir] at hef
    rcases List.mem_map.mp hef with ⟨pc, _, heq⟩
    have : p = n :: pc.1 := (congrArg Prod.fst heq).symm
    simp [this]

/-- The defaulted last element of a non-empty list ignores the default. -/
theorem getLastD_ne_nil (l : List String) (d1 d2 : String) (h : l ≠ []) :
    l.getLastD d1 = l.getLastD d2 := by
  obtain ⟨x, hx⟩ := Option.isSome_iff_exists.mp (List.getLast?_isSome.mpr h)
  rw [List.getLastD_eq_getLast?, List.getLastD_eq_getLast?, hx]
  rfl

/-- Every non-hidden matching file of a readable tree is collected by the
walk, and its structure line is printed with some indent. -/
theorem walkDir_complete (mp : String → Bool) :
    ∀ (N : Nat) (children : List Entry), sizeOf children ≤ N →
    ∀ (rel p : List String) (pre : String) (bytes : List Nat),
      allReadable children = true →
      (p, bytes) ∈ filesOf children →
      (∀ m ∈ p, isHiddenName m = false) →
      mp (relStr (rel ++ p)) = true →
      (rel ++ p, bytes) ∈ (walkDir mp rel pre true children).files ∧
      ∃ q, (q ++ "|_ " ++ p.getLastD "") ∈
        (walkDir mp rel pre true children).lines := by
  intro N
  induction N with
  | zero =>
    intro children h
    exact absurd h (by have := one_le_sizeOf_entryList children; omega)
  | succ N ih =>
    intro children hN rel p pre bytes hrd hmem hnh hmp
    rcases (mem_filesOf _ _).mp hmem with ⟨e, he, hef⟩
    have main : (rel ++ p, bytes) ∈ (walkEntry mp rel pre e).files ∧
        isHiddenName e.name = false ∧
        ∃ q, (q ++ "|_ " ++ p.getLastD "") ∈ (walkEntry mp rel pre e).lines := by
      cases e with
      | file n b =>
        rw [entryFiles_file] at hef
        simp only [List.mem_singleton, Prod.mk.injEq] at hef
        obtain ⟨hp, hb⟩ := hef
        subst hp
        subst hb
        have hhid : isHiddenName n = false := hnh n (by simp)
        refine ⟨?_, by simpa [Entry.name] using hhid, pre, ?_⟩
        · simp [walkEntry, hmp]
        · simp [walkEntry, hmp]
      | dir n r' gc =>
        rw [entryFiles_dir] at hef
        rcases List.mem_map.mp hef with ⟨⟨p', b'⟩, hmem', heq⟩
        obtain ⟨hp, hb⟩ : p = n :: p' ∧ bytes = b' := by
          constructor
          · exact (congrArg Prod.fst heq).symm
          · exact (congrArg Prod.snd heq).symm
        subst hp
        subst hb
        have hhid : isHiddenName n = false := hnh n (by simp)
        have hrde : allReadableEntry (.dir n r' gc) = true :=
          allReadable_mem children _ hrd he
        rw [allReadableEntry_dir, Bool.and_eq_true] at hrde
        obtain ⟨hr', hrdgc⟩ := hrde
        subst hr'
        have hsz : sizeOf gc ≤ N := by
          have h1 := List.sizeOf_lt_of_mem he
          have h2 := sizeOf_children_lt n true gc
          omega
        have hnh' : ∀ m ∈ p', isHiddenName m = false := fun m hm =>
          hnh m (by simp [hm])
        have hmp' : mp (relStr ((rel ++ [n]) ++ p')) = true := by
          rw [List.append_assoc]
          simpa using hmp
        have hp'ne : p' ≠ [] := filesOf_path_ne_nil gc p' bytes hmem'
        have hpath : rel ++ n :: p' = (rel ++ [n]) ++ p' := by
          rw [List.append_assoc]
          simp
        have hlast : (n :: p').getLastD "" = p'.getLastD "" := by
          rw [List.getLastD_cons]
          exact getLastD_ne_nil p' n "" hp'ne
        by_cases hmpd : mp (relStr (rel ++ [n])) = true
        · have hres := ih gc hsz (rel ++ [n]) p' (pre ++ "|     ") bytes
            hrdgc hmem' hnh' hmp'
          obtain ⟨hfile, q, hline⟩ := hres
          refine ⟨?_, by simpa [Entry.name] using hhid, q, ?_⟩
          · rw [hpath]
            simpa [walkEntry, hmpd] using hfile
          · rw [hlast]
            simp only [walkEntry, hmpd, if_true]
            simp only [List.mem_cons]
            right
            exact hline
        · have hcm : containsMatches mp (rel ++ [n]) true gc = true := by
            rw [containsMatches, if_pos rfl]
            exact containsList_complete mp (sizeOf gc) gc (Nat.le_refl _)
              (rel ++ [n]) p' bytes hmem' hnh' hmp'
          have hres := ih gc hsz (rel ++ [n]) p' pre bytes hrdgc hmem' hnh' hmp'
          obtain ⟨hfile, q, hline⟩ := hres
          refine ⟨?_, by simpa [Entry.name] using hhid, q, ?_⟩
          · rw [hpath]
            simpa [walkEntry, hmpd, hcm] using hfile
          · rw [hlast]
            simpa [walkEntry, hmpd, hcm] using hline
    obtain ⟨hfe, hhid, q, hline⟩ := main
    have hefil : e ∈ children.filter fun e => !isHiddenName e.name :=
      List.mem_filter.mpr ⟨he, by simp [hhid]⟩
    have hesort : e ∈ sortEntries (children.filter fun e => !isHiddenName e.name) :=
      (mem_sortEntries _ _).mpr hefil
    rw [walkDir, if_pos rfl]
    constructor
    · exact (mem_walkSorted_files mp rel pre _ _).mpr ⟨e, hesort, hfe⟩
    · exact ⟨q, mem_walkSorted_lines mp rel pre _ e _ hesort hline⟩

/-! ### Content rendering and the session driver
(TreePrinter::print_file_content, print_single_file, process_target) -/

/-- Split the raw bytes at newline bytes (the chunks `std::getline`
delivers before the final-chunk adjustment). -/
def splitNl : List Nat → List (List Nat)
  | [] => [[]]
  | b :: bs =>
    match splitNl bs with
    | [] => [[]]
    | chunk :: rest =>
      if b == 10 then [] :: chunk :: rest else (b :: chunk) :: rest

/-- The lines `std::getline` yields on the byte content: newline-separated
chunks, with no extra empty line after a trailing newline and no line at all
for an empty file. -/
def linesOfBytes (bytes : List Nat) : List String :=
  let parts := splitNl bytes
  let kept := if parts.getLast? = some [] then parts.dropLast else parts
  kept.map fun bs => String.mk (bs.map Char.ofNat)

/-- The loop of `TreePrinter::print_file_content` (pptt.cpp lines 302-333)
over the already-sorted visible files, threading the unknown-extension set:
binary files are skipped with no output at all, every other file contributes
one delimited block. -/
def render_files (showNums : Bool) (rootName : String) :
    List PathFile → List String → List String × List String
  | [], unk => ([], unk)
  | (p, bytes) :: rest, unk =>
    if is_binary_bytes bytes then render_files showNums rootName rest unk
    else
      let su := get_comment_style (extOf (p.getLastD "")) unk
      let restRes := render_files showNums rootName rest su.2
      (fileBlock showNums true su.1 (rootName ++ "/" ++ relStr p)
          (linesOfBytes bytes) ++ restRes.1,
        restRes.2)

/-- `TreePrinter::print_file_content` (pptt.cpp lines 291-334): an empty
visible set prints the no-match message, otherwise the files are sorted by
full path and rendered in order. -/
def print_file_content (showNums : Bool) (rootName : String)
    (visible : List PathFile) (unk : List String) :
    List String × List String :=
  if visible.isEmpty then (["", "No matching directories or files!"], unk)
  else render_files showNums rootName (sortFiles visible) unk

/-- `TreePrinter::print_unknown_extensions_warning` (pptt.cpp lines
408-417): silent for an empty set, otherwise the warning block on standard
error with the extensions in sorted order. -/
def warnLines (unk : List String) : List String :=
  if unk.isEmpty then []
  else
    ["",
     "Warning: Unknown file extensions encountered (no comment style defined):"] ++
    (sortStrings unk).map (fun e => "  " ++ e) ++
    ["These files will use the default format without comment-style headers.",
     ""]

/-- The directory branch of `TreePrinter::process_target` (pptt.cpp lines
461-475 and 432-448): header line, walk, content rendering unless `-d`, and
the trailing unknown-extension warning; the result is (standard output,
standard error, final unknown-extension set). -/
def process_target_dir (mp : String → Bool) (showDirOnly showNums : Bool)
    (rootName : String) (r : Bool) (children : List Entry) :
    List String × List String × List String :=
  let w := walkDir mp [] "" r children
  if showDirOnly then
    (rootName :: w.lines, w.errs ++ warnLines [], [])
  else
    let res := print_file_content showNums rootName w.files []
    (rootName :: w.lines ++ res.1, w.errs ++ warnLines res.2, res.2)

/-- The files whose content blocks `print_file_content` emits for a walked
directory: the collected visible files, sorted by full path, minus the
binary ones. -/
def renderedEntries (mp : String → Bool) (children : List Entry) :
    List PathFile :=
  (sortFiles (walkDir mp [] "" true children).files).filter
    fun pc => !is_binary_bytes pc.2

/-- A single-file CLI target: its absolute path string, the filename of its
parent directory (the display root), its own filename, the sniffing read
(`none` when the file cannot be opened), its text lines, and whether the
render-time open succeeds. -/
structure SFile where
  pathStr : String
  rootName : String
  fileName : String
  bytes : Option (List Nat)
  body : List String
  canOpen : Bool

/-- `operator<<` on `std::filesystem::path` quotes the path. -/
def quotePath (s : String) : String :=
  "\"" ++ s ++ "\""

/-- `TreePrinter::print_single_file` (pptt.cpp lines 371-406) on an existing
regular file, threading the unknown-extension set: a binary file produces
only the one-line notice with the quoted path; otherwise the framed content
block without surrounding blank lines. -/
def print_single_file (showNums : Bool) (f : SFile) (unk : List String) :
    List String × List String :=
  if is_binary f.bytes then
    (["The file " ++ quotePath f.pathStr ++
        " is binary. Content not displayed."], unk)
  else
    let su := get_comment_style (extOf f.fileName) unk
    (blockHeader su.1 (f.rootName ++ "/" ++ f.fileName) ++
       print_file_content_with_lines showNums f.canOpen f.body ++
       blockFooter su.1,
     su.2)

/-- The regular-file branch of `TreePrinter::process_target` (pptt.cpp lines
476-492): the filter is applied to the path relative to the parent
directory (the bare filename), a failing filter prints the no-match message,
a passing one renders the file and then the unknown-extension warning;
result is (standard output, standard error). -/
def process_target_file (mp : String → Bool) (showNums : Bool) (f : SFile) :
    List String × List String :=
  if mp f.fileName then
    let res := print_single_file showNums f []
    (res.1, warnLines res.2)
  else
    (["No matching directories or files!"], [])

/-- How the CLI target resolved (pptt.cpp lines 461, 476, 493). -/
inductive TargetKind where
  | directory
  | regularFile
  | neither
deriving DecidableEq, Repr

/-- The error line of the final else of `process_target` (pptt.cpp line
494). -/
def target_error_line : String :=
  "Error: Target does not exist or is not accessible."

/-- The standard output `process_target` produces as a function of how the
target resolved: the error line replaces the normal output when the target
is neither a directory nor a regular file. -/
def process_target_out (kind : TargetKind) (normalOut : List String) :
    List String :=
  match kind with
  | .neither => [target_error_line]
  | _ => normalOut

/-- The process exit status of `main` (pptt.cpp lines 519-552): 1 when
`getopt` rejects an option (lines 538-540), otherwise 0 — `process_target`
has no way to change it (line 551 returns 0 unconditionally). -/
def pptt_exit_code (usageError : Bool) : Nat :=
  if usageError then 1 else 0

/-! ### Facts about the walk and the driver -/

/-- Claim C2: over a fully readable tree, a file gets its content block
rendered iff it is a file of the tree whose name and ancestor directory
names are all non-hidden, it is not classified binary, and the pattern
filter accepts its path relative to the base directory.  The left-to-right
direction holds for every filter predicate, so a hidden entry is dropped
no matter what the filters would say. -/
theorem c2_rendered_iff (mp : String → Bool) (children : List Entry)
    (p : List String) (bytes : List Nat)
    (hrd : allReadable children = true) :
    (p, bytes) ∈ renderedEntries mp children ↔
      ((p, bytes) ∈ filesOf children ∧
        (∀ m ∈ p, isHiddenName m = false) ∧
        is_binary_bytes bytes = false ∧
        mp (relStr p) = true) := by
  unfold renderedEntries
  rw [List.mem_filter, mem_sortFiles]
  constructor
  · rintro ⟨hmem, hbin⟩
    rcases walkDir_files_sound mp (sizeOf children) children (Nat.le_refl _)
        [] "" true _ hmem with ⟨p', bytes', heq, hmem', hnh', hmp'⟩
    simp only [List.nil_append] at heq hmp'
    obtain ⟨hp, hb⟩ : p = p' ∧ bytes = bytes' := by
      constructor
      · exact congrArg Prod.fst heq
      · exact congrArg Prod.snd heq
    subst hp
    subst hb
    exact ⟨hmem', hnh', by simpa using hbin, hmp'⟩
  · rintro ⟨hmem, hnh, hbin, hmp⟩
    refine ⟨?_, by simp [hbin]⟩
    have hres := (walkDir_complete mp (sizeOf children) children (Nat.le_refl _)
      [] p "" bytes hrd hmem hnh (by simpa using hmp)).1
    simpa using hres

/-- Witness for C2: a one-file tree whose file is text, non-hidden and
matched by the always-true filter is rendered. -/
theorem c2_rendered_iff_witness :
    (["a.py"], [104, 105]) ∈
      renderedEntries (fun _ => true) [Entry.file "a.py" [104, 105]] :=
  (c2_rendered_iff (fun _ => true) [Entry.file "a.py" [104, 105]]
      ["a.py"] [104, 105] (by decide)).mpr
    ⟨(mem_filesOf (["a.py"], [104, 105]) [Entry.file "a.py" [104, 105]]).mpr
        ⟨Entry.file "a.py" [104, 105], by simp, by rw [entryFiles_file]; simp⟩,
      by decide, by decide, rfl⟩

/-- Claim C5: a directory prints its own structure line iff it passes the
filter itself (then its subtree is walked with a deeper indent); a failing
directory whose lookahead finds something is walked with the same indent and
no own line; a failing directory whose lookahead finds nothing is dropped;
and in a readable subtree every non-hidden matching descendant file still
reaches the collected files and gets a structure line, whether or not the
directory itself passed. -/
theorem c5_directory_pruning (mp : String → Bool) (rel : List String)
    (pre n : String) (r : Bool) (children : List Entry) :
    (mp (relStr (rel ++ [n])) = true →
      walkEntry mp rel pre (.dir n r children) =
        ⟨(pre ++ "|_ " ++ n) ::
            (walkDir mp (rel ++ [n]) (pre ++ "|     ") r children).lines,
          (walkDir mp (rel ++ [n]) (pre ++ "|     ") r children).errs,
          (walkDir mp (rel ++ [n]) (pre ++ "|     ") r children).files⟩) ∧
    (mp (relStr (rel ++ [n])) = false →
      containsMatches mp (rel ++ [n]) r children = true →
      walkEntry mp rel pre (.dir n r children) =
        walkDir mp (rel ++ [n]) pre r children) ∧
    (mp (relStr (rel ++ [n])) = false →
      containsMatches mp (rel ++ [n]) r children = false →
      walkEntry mp rel pre (.dir n r children) = ⟨[], [], []⟩) ∧
    (∀ (p : List String) (bytes : List Nat),
      allReadableEntry (.dir n r children) = true →
      (p, bytes) ∈ entryFiles (.dir n r children) →
      (∀ m ∈ p, isHiddenName m = false) →
      mp (relStr (rel ++ p)) = true →
      (rel ++ p, bytes) ∈ (walkEntry mp rel pre (.dir n r children)).files ∧
      ∃ q, (q ++ "|_ " ++ p.getLastD "") ∈
        (walkEntry mp rel pre (.dir n r children)).lines) := by
  refine ⟨?_, ?_, ?_, ?_⟩
  · intro h
    simp [walkEntry, h]
  · intro h1 h2
    simp [walkEntry, h1, h2]
  · intro h1 h2
    simp [walkEntry, h1, h2]
  · intro p bytes hrde hmem hnh hmp
    have hn : isHiddenName n = false := by
      rw [entryFiles_dir] at hmem
      rcases List.mem_map.mp hmem with ⟨pc, _, heq⟩
      have hp : p = n :: pc.1 := (congrArg Prod.fst heq).symm
      exact hnh n (by simp [hp])
    have hrd1 : allReadable [Entry.dir n r children] = true := by
      rw [allReadable, allReadableEntry]
      rw [allReadableEntry] at hrde
      simp [hrde, allReadable]
    have hmem1 : (p, bytes) ∈ filesOf [Entry.dir n r children] :=
      (mem_filesOf _ _).mpr ⟨_, by simp, hmem⟩
    have hres := walkDir_complete mp (sizeOf [Entry.dir n r children]) _
      (Nat.le_refl _) rel p pre bytes hrd1 hmem1 hnh hmp
    have hsingle : walkDir mp rel pre true [Entry.dir n r children] =
        (walkEntry mp rel pre (Entry.dir n r children)).app ⟨[], [], []⟩ := by
      rw [walkDir, if_pos rfl]
      simp [List.filter, Entry.name, hn, sortEntries, insertEntry, walkSorted]
    rw [hsingle] at hres
    obtain ⟨hfile, q, hline⟩ := hres
    refine ⟨by simpa using hfile, q, by simpa using hline⟩

/-- Witness for C5: a directory `d` that fails the filter while its file
`d/x.py` matches is recursed into, and the file still appears in the
collected files with a structure line. -/
theorem c5_directory_pruning_witness :
    (["d", "x.py"], [104]) ∈
      (walkEntry (fun s => s == "d/x.py") [] ""
        (.dir "d" true [Entry.file "x.py" [104]])).files ∧
    ∃ q, (q ++ "|_ " ++ ["d", "x.py"].getLastD "") ∈
      (walkEntry (fun s => s == "d/x.py") [] ""
        (.dir "d" true [Entry.file "x.py" [104]])).lines := by
  have hres := (c5_directory_pruning (fun s => s == "d/x.py") [] "" "d" true
      [Entry.file "x.py" [104]]).2.2.2 ["d", "x.py"] [104]
    (by simp [allReadableEntry_dir, allReadable_cons, allReadable_nil,
          allReadableEntry_file])
    (by rw [entryFiles_dir]
        refine List.mem_map.mpr ⟨(["x.py"], [104]), ?_, rfl⟩
        simp [filesOf_cons, filesOf_nil, entryFiles_file])
    (by decide) (by decide)
  simpa using hres

/-- Claim C6: the lookahead treats an unreadable directory as possibly
containing matches (fail open), while the main walk treats it as empty after
reporting the error (fail closed) — it prints no structure line for its
contents, collects no files from it, and the loop continues with the
remaining siblings unharmed. -/
theorem c6_error_asymmetry (mp : String → Bool) (rel : List String)
    (pre n : String) (children rest : List Entry) :
    containsMatches mp rel false children = true ∧
    walkDir mp rel pre false children =
      ⟨[], ["Error reading directory " ++ relStr rel], []⟩ ∧
    (walkEntry mp rel pre (.dir n false children)).files = [] ∧
    (walkSorted mp rel pre (.dir n false children :: rest)).files =
      (walkSorted mp rel pre rest).files := by
  have hfiles : (walkEntry mp rel pre (.dir n false children)).files = [] := by
    by_cases hmp : mp (relStr (rel ++ [n])) = true
    · simp [walkEntry, hmp, walkDir]
    · simp [walkEntry, hmp, containsMatches, walkDir]
  refine ⟨by simp [containsMatches], by simp [walkDir], hfiles, ?_⟩
  simp [walkSorted, hfiles]

/-- Claim C7: a single-file CLI target that is classified binary produces
exactly the one notice line (with the path rendered as the quoted form
`operator<<` gives an `std::filesystem::path`) and nothing else — no
header, no framing, no content, no warning; and inside a directory walk a
binary file contributes no output at all to the content rendering. -/
theorem c7_single_binary_file (mp : String → Bool) (showNums : Bool)
    (f : SFile) (hbin : is_binary f.bytes = true)
    (hmp : mp f.fileName = true) :
    process_target_file mp showNums f =
      (["The file " ++ quotePath f.pathStr ++
          " is binary. Content not displayed."], []) ∧
    (∀ (rootName : String) (rest : List PathFile) (unk : List String)
        (p : List String) (bytes : List Nat),
      is_binary_bytes bytes = true →
      render_files showNums rootName ((p, bytes) :: rest) unk =
        render_files showNums rootName rest unk) := by
  constructor
  · simp [process_target_file, hmp, print_single_file, hbin, warnLines]
  · intro rootName rest unk p bytes hb
    simp [render_files, hb]

/-- Witness for C7 at a concrete binary file (leading NUL byte) and the
always-true filter. -/
theorem c7_single_binary_file_witness :
    process_target_file (fun _ => true) false
        ⟨"/tmp/x.bin", "tmp", "x.bin", some [0, 1, 2], [], true⟩ =
      (["The file " ++ quotePath "/tmp/x.bin" ++
          " is binary. Content not displayed."], []) ∧
    render_files false "tmp" ((["x.bin"], [0, 1, 2]) :: []) [] =
      render_files false "tmp" [] [] := by
  have hres := c7_single_binary_file (fun _ => true) false
    ⟨"/tmp/x.bin", "tmp", "x.bin", some [0, 1, 2], [], true⟩
    (by decide) rfl
  exact ⟨hres.1, hres.2 "tmp" [] [] ["x.bin"] [0, 1, 2] (by decide)⟩

/-- A run of the content renderer over only binary files emits nothing and
leaves the unknown-extension set untouched. -/
theorem render_files_all_binary (showNums : Bool) (rootName : String)
    (l : List PathFile) (unk : List String)
    (h : ∀ pc ∈ l, is_binary_bytes pc.2 = true) :
    render_files showNums rootName l unk = ([], unk) := by
  induction l with
  | nil => simp [render_files]
  | cons pc rest ih =>
    obtain ⟨p, bytes⟩ := pc
    have hb : is_binary_bytes bytes = true := h (p, bytes) (by simp)
    rw [render_files, if_pos hb]
    exact ih fun x hx => h x (by simp [hx])

/-- Claim C10: the unknown-extension set is filled only by the comment-style
lookup during content rendering of non-binary files: in structure-only mode
the driver ends with the empty set and emits no warning beyond the walk
errors, and the same holds when every collected file is binary. -/
theorem c10_unknown_extensions (mp : String → Bool) (showNums : Bool)
    (rootName : String) (r : Bool) (children : List Entry) :
    ((process_target_dir mp true showNums rootName r children).2.2 = [] ∧
     (process_target_dir mp true showNums rootName r children).2.1 =
       (walkDir mp [] "" r children).errs) ∧
    ((∀ pc ∈ (walkDir mp [] "" r children).files,
        is_binary_bytes pc.2 = true) →
      (process_target_dir mp false showNums rootName r children).2.2 = [] ∧
      (process_target_dir mp false showNums rootName r children).2.1 =
        (walkDir mp [] "" r children).errs) := by
  constructor
  · constructor
    · simp [process_target_dir]
    · simp [process_target_dir, warnLines]
  · intro hall
    have hpfc : (print_file_content showNums rootName
        (walkDir mp [] "" r children).files []).2 = [] := by
      unfold print_file_content
      by_cases hemp : (walkDir mp [] "" r children).files.isEmpty = true
      · rw [if_pos hemp]
      · rw [if_neg hemp]
        rw [render_files_all_binary showNums rootName _ []
          (fun x hx => hall x ((mem_sortFiles _ _).mp hx))]
    constructor
    · simpa [process_target_dir] using hpfc
    · simp only [process_target_dir]
      rw [hpfc]
      simp [warnLines]

/-- Witness for C10 on a one-binary-file tree with an unknown extension. -/
theorem c10_unknown_extensions_witness :
    (process_target_dir (fun _ => true) true false "root" true
        [Entry.file "a.zzz" [0]]).2.2 = [] ∧
    ((process_target_dir (fun _ => true) false false "root" true
        [Entry.file "a.zzz" [0]]).2.2 = []) := by
  have hres := c10_unknown_extensions (fun _ => true) false "root" true
    [Entry.file "a.zzz" [0]]
  refine ⟨hres.1.1, ?_⟩
  have hall : ∀ pc ∈ (walkDir (fun _ => true) [] "" true
      [Entry.file "a.zzz" [0]]).files, is_binary_bytes pc.2 = true := by
    intro pc hpc
    rcases walkDir_files_sound (fun _ => true) (sizeOf [Entry.file "a.zzz" [0]])
        _ (Nat.le_refl _) [] "" true pc hpc with ⟨p, bytes, heq, hmem, _, _⟩
    rw [filesOf_cons, filesOf_nil, entryFiles_file] at hmem
    simp only [List.append_nil, List.mem_singleton, Prod.mk.injEq] at hmem
    rw [heq]
    simp only [hmem.2]
    decide
  exact (hres.2 hall).1

/-- Claim C3 counterexample: a target that is neither a directory nor a
regular file prints the error line, but `main` still returns 0 — the claimed
non-zero exit status does not happen, because `process_target` is `void` and
`main` ends with `return 0` unconditionally (pptt.cpp line 551). -/
theorem c3_exit_code_counterexample :
    process_target_out TargetKind.neither [] = [target_error_line] ∧
    pptt_exit_code false = 0 := by
  exact ⟨rfl, rfl⟩

/-- Claim C3 (amended): a target that is neither an existing directory nor
an existing regular file prints the error message but the process still
exits with status 0; status 0 is produced on every completion of
`process_target` (including the nothing-matched case), and a non-zero
status occurs only for a `getopt` usage error. -/
theorem c3_exit_codes (kind : TargetKind) (normalOut : List String) :
    (kind = TargetKind.neither →
      process_target_out kind normalOut = [target_error_line]) ∧
    pptt_exit_code false = 0 ∧
    pptt_exit_code true = 1 := by
  refine ⟨?_, rfl, rfl⟩
  intro h
  subst h
  rfl

/-- Witness for C3 at the failing target kind. -/
theorem c3_exit_codes_witness :
    process_target_out TargetKind.neither ["x"] = [target_error_line] ∧
    pptt_exit_code false = 0 ∧
    pptt_exit_code true = 1 :=
  ⟨(c3_exit_codes TargetKind.neither ["x"]).1 rfl,
   (c3_exit_codes TargetKind.neither ["x"]).2⟩
